import Mathlib

/-!
Verification of the benchdnn graph input displacer
(tests/benchdnn/graph/input_displacer.cpp): the boundary scanner built by
the constructor of partition_data_displacer_t and the displacement
executor displace_input_data, embedded shallowly.  The reference
execution backend (ref_primitive_t) is external to the analysed sources
and is modelled as an abstract record of functions.
-/

set_option autoImplicit false

/-- A logical tensor descriptor: stable id and element data type.  Shape
and layout metadata are not consulted by the scanner's or the executor's
control flow, so they are omitted. -/
structure Lt where
  id : Nat
  data_type : String
deriving DecidableEq

instance : Inhabited Lt := ⟨⟨0, ""⟩⟩

/-- A deserialized operation: id, kind string, ordered input and output
tensors, and the value of its integer-vector attribute named order (used
by StaticTranspose; empty for other kinds). -/
structure DOp where
  id : Nat
  kind : String
  in_lts : List Lt
  out_lts : List Lt
  order : List Int
deriving DecidableEq

instance : Inhabited DOp := ⟨⟨0, "", [], [], []⟩⟩

/-- A deserialized graph: operations in chronological order (every
operation appears after the producers of its inputs). -/
structure DGraph where
  ops : List DOp
deriving DecidableEq

/-- Modelled from the spec: the producer lookup of the graph collaborator
(deserialized_graph::get_op_by_out_lt, defined outside the analysed
sources).  It returns the operation producing the given tensor id as one
of its outputs, or none when the tensor is a graph-level external input
(the source returns a static empty op in that case). -/
def DGraph.get_op_by_out_lt (dg : DGraph) (ltId : Nat) : Option DOp :=
  dg.ops.find? (fun op => op.out_lts.any (fun lt => lt.id == ltId))

/-- The fixed vocabulary of main compute op kinds, verbatim from the
source (note that the source spells the subtract kind Substract). -/
def main_op_kind : List String :=
  ["Convolution", "ConvTranspose", "AvgPool", "MaxPool", "MatMul", "Add",
   "Divide", "Maximum", "Minimum", "Multiply", "Substract"]

/-- The fixed vocabulary of transparent (go-through) op kinds from the
source. -/
def go_through_op_kind : List String :=
  ["StaticTranspose", "StaticReshape", "TypeCast", "Quantize", "Dequantize"]

/-- Modelled from the spec: the canonical kind string of the elementwise
subtract operation in the graph op vocabulary (the spelling produced by
the graph serializer and accepted by opstr2kind, both outside the
analysed sources). -/
def spec_subtract_kind : String := "Subtract"

/-- The acceptance test for a dequantize boundary, from the constructor:
the producer of the dequantize's own input tensor is absent
(prev_parent_op.empty()) or its id is not a member of the partition. -/
def accept_boundary (dg : DGraph) (part : List Nat) (tid : Nat) : Bool :=
  match dg.get_op_by_out_lt tid with
  | none => true
  | some prev => !(part.contains prev.id)

/-- The boundary map: tensor id to (main op, input slot, boundary
tensor), mirroring the member quantize_displace_. -/
abbrev QMap := List (Nat × DOp × Nat × Lt)

/-- Map lookup, mirroring unordered_map find/at. -/
def lookupQ (m : QMap) (k : Nat) : Option (DOp × Nat × Lt) :=
  (m.find? (fun e => e.1 == k)).map (fun e => e.2)

/-- Map insertion, mirroring unordered_map emplace: a key already present
keeps its original value. -/
def emplaceQ (m : QMap) (k : Nat) (v : DOp × Nat × Lt) : QMap :=
  if (m.find? (fun e => e.1 == k)).isSome then m else m ++ [(k, v)]

/-- The inner walk of the constructor for one input slot of a main op:
follow producers upward; a Dequantize producer whose own input has no
in-partition producer is accepted (record the triple keyed by the
dequantize's input tensor id and stop); otherwise the walk continues
through go-through kinds via the producer's first input, and stops on
any other kind or on a missing producer.  Fuel bounds the recursion; on
chronologically sorted graphs one unit per graph op plus one suffices. -/
def walkSlot (dg : DGraph) (part : List Nat) (aop : DOp) (i : Nat) :
    Nat → Lt → Option (Nat × DOp × Nat × Lt)
  | 0, _ => none
  | fuel + 1, lt =>
    match dg.get_op_by_out_lt lt.id with
    | none => none
    | some parent =>
      let pin := parent.in_lts.headD default
      if parent.kind == "Dequantize" && accept_boundary dg part pin.id then
        some (pin.id, aop, i, pin)
      else if go_through_op_kind.contains parent.kind then
        walkSlot dg part aop i fuel pin
      else none

/-- The constructor's handling of one operation of the graph: ops outside
the partition or with a non-main kind are skipped; otherwise every input
slot is walked and an accepted boundary is emplaced into the map. -/
def scanOp (dg : DGraph) (part : List Nat) (m : QMap) (aop : DOp) : QMap :=
  if part.contains aop.id && main_op_kind.contains aop.kind then
    (List.range aop.in_lts.length).foldl
      (fun acc i =>
        match walkSlot dg part aop i (dg.ops.length + 1)
            (aop.in_lts.getD i default) with
        | none => acc
        | some (k, v) => emplaceQ acc k v)
      m
  else m

/-- The whole boundary scan of the constructor: fold over the graph's
operations in chronological order starting from the empty map. -/
def buildDisplaceMap (dg : DGraph) (part : List Nat) : QMap :=
  dg.ops.foldl (scanOp dg part) []

/-- The reverse-transpose order computation from displace_input_data,
verbatim: new_order[(order[i] + ndims) % ndims] = i for each i below
ndims, with C-style truncated remainder. -/
def invert_order (order : List Int) : List Int :=
  (List.range order.length).foldl
    (fun new_order i =>
      new_order.set
        (((order.getD i 0 + (order.length : Int)).tmod
            (order.length : Int)).toNat)
        (i : Int))
    (List.replicate order.length 0)

/-- Modelled from the spec: applying a transpose permutation to a
sequence, position k of the result holding the element at position
order[k] of the input. -/
def apply_order {α : Type} (order : List Int) (d : α) (xs : List α) :
    List α :=
  order.map (fun j => xs.getD j.toNat d)

/-- A valid permutation attribute: pairwise distinct entries, each a
nonnegative index below the length. -/
def valid_order (order : List Int) : Prop :=
  order.Nodup ∧ ∀ a ∈ order, 0 ≤ a ∧ a < (order.length : Int)

/-- The construction of the reversed op in the replay loop: swap input
and output tensors, then adjust by kind; Quantize and Dequantize swap
kinds keeping scales and zero points, StaticTranspose re-permutes its
order attribute, TypeCast and StaticReshape need nothing further, and
every other kind hits the assertion branch (modelled as none). -/
def reverseOp (p : DOp) : Option DOp :=
  let op : DOp := { p with in_lts := p.out_lts, out_lts := p.in_lts }
  if op.kind == "Quantize" then some { op with kind := "Dequantize" }
  else if op.kind == "Dequantize" then some { op with kind := "Quantize" }
  else if op.kind == "StaticTranspose" then
    some { op with order := invert_order op.order }
  else if op.kind == "TypeCast" || op.kind == "StaticReshape" then some op
  else none

/-- Outcome of the quantize-filling synthesis (gen_quantize_filling): a
FAIL return from an invalid problem, a SKIPPED or UNIMPLEMENTED backend
state (the source then returns OK without data), or a produced buffer. -/
inductive FillResult (Mem : Type) where
  | invalid
  | skipped
  | filled (m : Mem)
deriving DecidableEq

/-- The external reference backend, abstracted: quantize filling for a
main op, argument offset and data type; execution of one reversed op on
the current buffer; and the final reorder of a buffer into the caller's
target (modelled as always succeeding). -/
structure Backend (Mem : Type) where
  fill : DOp → Nat → String → FillResult Mem
  execReverse : DOp → Mem → Mem
  reorder : Mem → Mem → Mem

/-- Return status of displace_input_data.  The source returns OK or FAIL;
the unsupported-kind branch of the replay loop additionally fires a
C assert before returning FAIL, modelled as the distinct assertFail. -/
inductive DStatus where
  | ok
  | fail
  | assertFail
deriving DecidableEq

/-- Outcome of the reverse-replay loop: a final buffer, the assertion
branch for an unsupported kind, or fuel exhaustion (unreachable on
chronologically sorted graphs; the C source would not terminate). -/
inductive ReplayOut (Mem : Type) where
  | done (m : Mem)
  | assertFail
  | fuelOut
deriving DecidableEq

/-- The reverse-replay while loop of displace_input_data: while the
current tensor's producer exists and is in the partition, build the
reversed op (unsupported kinds assert), execute it on the current
buffer, and advance the current tensor to the reversed op's output
(the producer's first input). -/
def reverseReplay {Mem : Type} (dg : DGraph) (part : List Nat)
    (B : Backend Mem) : Nat → Lt → Mem → ReplayOut Mem
  | 0, _, _ => ReplayOut.fuelOut
  | fuel + 1, t, m =>
    match dg.get_op_by_out_lt t.id with
    | none => ReplayOut.done m
    | some p =>
      if part.contains p.id then
        match reverseOp p with
        | none => ReplayOut.assertFail
        | some rop =>
          reverseReplay dg part B fuel (rop.out_lts.headD default)
            (B.execReverse rop m)
      else ReplayOut.done m

/-- The displacement executor displace_input_data: fail without a graph;
return OK untouched when the tensor id has no boundary record; otherwise
synthesize data for the recorded main op and argument (FAIL on an
invalid problem, OK untouched on SKIPPED or UNIMPLEMENTED), run the
reverse replay, and reorder the resulting buffer into the target. -/
def displace {Mem : Type} (dgOpt : Option DGraph) (part : List Nat)
    (qmap : QMap) (B : Backend Mem) (lt_id : Nat) (mem : Mem) :
    DStatus × Mem :=
  match dgOpt with
  | none => (DStatus.fail, mem)
  | some dg =>
    match lookupQ qmap lt_id with
    | none => (DStatus.ok, mem)
    | some (main_op, offset, tensor) =>
      match B.fill main_op offset tensor.data_type with
      | FillResult.invalid => (DStatus.fail, mem)
      | FillResult.skipped => (DStatus.ok, mem)
      | FillResult.filled m0 =>
        match reverseReplay dg part B (dg.ops.length + 1) tensor m0 with
        | ReplayOut.done mf => (DStatus.ok, B.reorder mem mf)
        | ReplayOut.assertFail => (DStatus.assertFail, mem)
        | ReplayOut.fuelOut => (DStatus.fail, mem)

/-- Concrete backend over natural-number buffers: filling yields the
buffer 5, a reverse step adds 31, and reordering buffer s into target t
yields 100 * s + t + 7 (so a reorder is always observable). -/
def natBackend : Backend Nat :=
  ⟨fun _ _ _ => FillResult.filled 5, fun _ m => m + 31,
   fun t s => 100 * s + t + 7⟩

/-- Concrete backend whose filling always reports a skipped or
unimplemented configuration. -/
def skipBackend : Backend Nat :=
  ⟨fun _ _ _ => FillResult.skipped, fun _ m => m + 31,
   fun t s => 100 * s + t + 7⟩

/-- Scenario g1: external input 100, a dequantize (id 1) and a matmul
(id 2), both in the partition. -/
def dq_g1 : DOp := ⟨1, "Dequantize", [⟨100, "u8"⟩], [⟨101, "f32"⟩], []⟩

/-- The main op of scenario g1. -/
def mm_g1 : DOp :=
  ⟨2, "MatMul", [⟨101, "f32"⟩, ⟨110, "f32"⟩], [⟨102, "f32"⟩], []⟩

/-- The graph of scenario g1. -/
def dg_g1 : DGraph := ⟨[dq_g1, mm_g1]⟩

/-- The partition of scenario g1. -/
def part_g1 : List Nat := [1, 2]

/-- Scenario g2: an outer dequantize (id 1, outside the partition)
feeding a quantize (id 2), an inner dequantize (id 3) and a matmul
(id 4), the last three in the partition.  The inner dequantize is
rejected (its predecessor, the quantize, is in the partition). -/
def d2_g2 : DOp := ⟨1, "Dequantize", [⟨100, "u8"⟩], [⟨101, "f32"⟩], []⟩

/-- The in-partition quantize of scenario g2. -/
def q1_g2 : DOp := ⟨2, "Quantize", [⟨101, "f32"⟩], [⟨102, "u8"⟩], []⟩

/-- The inner (rejected) dequantize of scenario g2. -/
def d1_g2 : DOp := ⟨3, "Dequantize", [⟨102, "u8"⟩], [⟨103, "f32"⟩], []⟩

/-- The main op of scenario g2. -/
def mm_g2 : DOp :=
  ⟨4, "MatMul", [⟨103, "f32"⟩, ⟨110, "f32"⟩], [⟨104, "f32"⟩], []⟩

/-- The graph of scenario g2. -/
def dg_g2 : DGraph := ⟨[d2_g2, q1_g2, d1_g2, mm_g2]⟩

/-- The partition of scenario g2 (the outer dequantize is outside). -/
def part_g2 : List Nat := [2, 3, 4]

/-- Scenario g3, the 4-op chain of the spec: external input 100, a
static transpose with order [1, 0, 2] (id 1), a dequantize (id 2) and a
matmul (id 3); tensor 102 is the matmul's first input. -/
def tp_g3 : DOp :=
  ⟨1, "StaticTranspose", [⟨100, "u8"⟩], [⟨101, "u8"⟩], [1, 0, 2]⟩

/-- The dequantize of scenario g3. -/
def dq_g3 : DOp := ⟨2, "Dequantize", [⟨101, "u8"⟩], [⟨102, "f32"⟩], []⟩

/-- The main op of scenario g3. -/
def mm_g3 : DOp :=
  ⟨3, "MatMul", [⟨102, "f32"⟩, ⟨110, "f32"⟩], [⟨103, "f32"⟩], []⟩

/-- The graph of scenario g3. -/
def dg_g3 : DGraph := ⟨[tp_g3, dq_g3, mm_g3]⟩

/-- The partition of scenario g3 holding all three chain ops. -/
def part_g3all : List Nat := [1, 2, 3]

/-- The partition of scenario g3 with the transpose left outside. -/
def part_g3out : List Nat := [2, 3]

/-- Scenario g4: one dequantize (id 1) whose output feeds two main ops,
a matmul (id 2) and an add (id 3); both discover the same boundary
tensor 100, the matmul first. -/
def dq_g4 : DOp := ⟨1, "Dequantize", [⟨100, "u8"⟩], [⟨101, "f32"⟩], []⟩

/-- The earlier main op of scenario g4. -/
def mm_g4 : DOp :=
  ⟨2, "MatMul", [⟨101, "f32"⟩, ⟨110, "f32"⟩], [⟨102, "f32"⟩], []⟩

/-- The later main op of scenario g4, consuming the same tensor 101. -/
def ad_g4 : DOp :=
  ⟨3, "Add", [⟨101, "f32"⟩, ⟨111, "f32"⟩], [⟨104, "f32"⟩], []⟩

/-- The graph of scenario g4. -/
def dg_g4 : DGraph := ⟨[dq_g4, mm_g4, ad_g4]⟩

/-- The partition of scenario g4. -/
def part_g4 : List Nat := [1, 2, 3]

/-- Scenario g5: a dequantize (id 1) feeding an elementwise subtract
(id 2) whose kind carries the canonical spelling. -/
def dq_g5 : DOp := ⟨1, "Dequantize", [⟨100, "u8"⟩], [⟨101, "f32"⟩], []⟩

/-- The subtract op of scenario g5, with the canonical kind string. -/
def sub_g5 : DOp :=
  ⟨2, spec_subtract_kind, [⟨101, "f32"⟩, ⟨111, "f32"⟩], [⟨102, "f32"⟩], []⟩

/-- The same op with kind Add, for comparison. -/
def ad_g5 : DOp :=
  ⟨2, "Add", [⟨101, "f32"⟩, ⟨111, "f32"⟩], [⟨102, "f32"⟩], []⟩

/-- The graph of scenario g5 with the subtract op. -/
def dg_g5sub : DGraph := ⟨[dq_g5, sub_g5]⟩

/-- The graph of scenario g5 with the add op instead. -/
def dg_g5add : DGraph := ⟨[dq_g5, ad_g5]⟩

/-- The partition of scenario g5. -/
def part_g5 : List Nat := [1, 2]

/-- Scenario g6: a pooling op (id 7) in the partition producing tensor
103; a hand-written boundary record at 103 makes the replay loop meet a
kind outside the reversible set. -/
def pool_g6 : DOp := ⟨7, "AvgPool", [⟨99, "f32"⟩], [⟨103, "f32"⟩], []⟩

/-- The graph of scenario g6. -/
def dg_g6 : DGraph := ⟨[pool_g6]⟩

/-- The partition of scenario g6. -/
def part_g6 : List Nat := [7]

/-- A boundary map entry pointing the replay at tensor 103 of g6. -/
def qmap_g6 : QMap := [(103, (pool_g6, 0, ⟨103, "f32"⟩))]

/-- Scenario g7: a single matmul with external inputs and no dequantize
anywhere in the graph. -/
def mm_g7 : DOp :=
  ⟨1, "MatMul", [⟨100, "f32"⟩, ⟨101, "f32"⟩], [⟨102, "f32"⟩], []⟩

/-- The graph of scenario g7. -/
def dg_g7 : DGraph := ⟨[mm_g7]⟩

/-- The partition of scenario g7. -/
def part_g7 : List Nat := [1]

/-! ## Helper lemmas about the boundary scan -/

/-- Any triple returned by the slot walk carries the scanned main op and
slot, is keyed by the recorded tensor's id, and that tensor's producer
is absent or outside the partition (the acceptance condition). -/
lemma walkSlot_some_accept (dg : DGraph) (part : List Nat) (aop : DOp)
    (i : Nat) :
    ∀ (fuel : Nat) (lt : Lt) (k : Nat) (a : DOp) (j : Nat) (t : Lt),
      walkSlot dg part aop i fuel lt = some (k, a, j, t) →
      k = t.id ∧ a = aop ∧ j = i ∧ accept_boundary dg part t.id = true := by
  intro fuel
  induction fuel with
  | zero => intro lt k a j t h; simp [walkSlot] at h
  | succ f ih =>
    intro lt k a j t h
    simp only [walkSlot] at h
    cases hp : dg.get_op_by_out_lt lt.id with
    | none => rw [hp] at h; simp at h
    | some parent =>
      rw [hp] at h
      simp only at h
      split at h
      · rename_i hc
        simp only [Option.some.injEq, Prod.mk.injEq] at h
        obtain ⟨hk, ha, hj, ht⟩ := h
        subst ht
        exact ⟨hk.symm, ha.symm, hj.symm, ((Bool.and_eq_true _ _).mp hc).2⟩
      · split at h
        · exact ih _ _ _ _ _ h
        · simp at h

/-! ## C1 and C2: the dequantize acceptance rule -/

/-- One step of the slot walk at a Dequantize producer: accepted when
the acceptance test passes, otherwise the walk continues from the
dequantize's own input (Dequantize is itself a go-through kind). -/
lemma walkSlot_dequantize_step (dg : DGraph) (part : List Nat) (aop : DOp)
    (i fuel : Nat) (lt : Lt) (parent : DOp)
    (hp : dg.get_op_by_out_lt lt.id = some parent)
    (hk : parent.kind = "Dequantize") :
    walkSlot dg part aop i (fuel + 1) lt =
      if accept_boundary dg part (parent.in_lts.headD default).id then
        some ((parent.in_lts.headD default).id, aop, i,
          parent.in_lts.headD default)
      else walkSlot dg part aop i fuel (parent.in_lts.headD default) := by
  simp only [walkSlot, hp, hk]
  have hg : go_through_op_kind.contains "Dequantize" = true := rfl
  by_cases hA : accept_boundary dg part (parent.in_lts.headD default).id
      = true
  · simp only [hA, beq_self_eq_true, Bool.and_self, if_true]
  · have hA' : accept_boundary dg part (parent.in_lts.headD default).id
        = false := by
      cases hq : accept_boundary dg part (parent.in_lts.headD default).id
      · rfl
      · exact absurd hq hA
    simp only [hA', Bool.and_false, Bool.false_eq_true, if_false, hg,
      if_true]

/-- C1: when the slot walk reaches a producer of kind Dequantize, that
dequantize is accepted as the boundary if and only if the producer of
the dequantize's own input tensor is absent or outside the partition;
on acceptance the walk immediately yields, keyed by the dequantize's
input tensor id, the triple of the main op, the slot index and the
dequantize's input tensor descriptor, stopping the scan of the slot. -/
theorem c1_dequantize_boundary_acceptance (dg : DGraph) (part : List Nat)
    (aop : DOp) (i fuel : Nat) (lt : Lt) (parent : DOp)
    (hp : dg.get_op_by_out_lt lt.id = some parent)
    (hk : parent.kind = "Dequantize") :
    accept_boundary dg part (parent.in_lts.headD default).id = true ↔
      walkSlot dg part aop i (fuel + 1) lt =
        some ((parent.in_lts.headD default).id, aop, i,
          parent.in_lts.headD default) := by
  rw [walkSlot_dequantize_step dg part aop i fuel lt parent hp hk]
  constructor
  · intro hacc
    rw [if_pos hacc]
  · intro hw
    by_contra hnacc
    rw [if_neg hnacc] at hw
    have hinv := walkSlot_some_accept dg part aop i fuel _ _ _ _ _ hw
    exact hnacc hinv.2.2.2

/-- Witness for C1 on scenario g1: the dequantize producing the matmul
input 101 has input tensor 100 with no producer, so the walk from the
matmul's first slot records (100, matmul, 0, tensor 100). -/
theorem c1_witness :
    dg_g1.get_op_by_out_lt 101 = some dq_g1 ∧
      walkSlot dg_g1 part_g1 mm_g1 0 3 ⟨101, "f32"⟩ =
        some (100, mm_g1, 0, ⟨100, "u8"⟩) :=
  ⟨by decide,
    (c1_dequantize_boundary_acceptance dg_g1 part_g1 mm_g1 0 2
      ⟨101, "f32"⟩ dq_g1 (by decide) (by decide)).mp (by decide)⟩

/-- C2 counterexample: in scenario g2 the walk from the matmul's first
slot meets the inner dequantize (id 3) whose predecessor, the quantize
(id 2), is inside the partition; the claim says the scan then terminates
with no boundary recorded for the slot, yet the scan continues upstream
and records the boundary 100 for that very slot (and the built map
holds it). -/
theorem c2_counterexample :
    dg_g2.get_op_by_out_lt 103 = some d1_g2 ∧
      d1_g2.kind = "Dequantize" ∧
      dg_g2.get_op_by_out_lt 102 = some q1_g2 ∧
      part_g2.contains q1_g2.id = true ∧
      walkSlot dg_g2 part_g2 mm_g2 0 5 ⟨103, "f32"⟩ =
        some (100, mm_g2, 0, ⟨100, "u8"⟩) ∧
      lookupQ (buildDisplaceMap dg_g2 part_g2) 100 =
        some (mm_g2, 0, ⟨100, "u8"⟩) := by
  refine ⟨by decide, by decide, by decide, by decide, by decide, by decide⟩

/-- C2 amended: a rejected dequantize (predecessor inside the partition)
is not itself recorded, but the scan of the slot does not terminate
there: since Dequantize is among the go-through kinds, the walk
continues upstream from the dequantize's own input and may still record
a boundary further upstream for the same slot. -/
theorem c2_rejected_dequantize_walk_continues (dg : DGraph)
    (part : List Nat) (aop : DOp) (i fuel : Nat) (lt : Lt)
    (parent prev : DOp)
    (hp : dg.get_op_by_out_lt lt.id = some parent)
    (hk : parent.kind = "Dequantize")
    (hprev : dg.get_op_by_out_lt (parent.in_lts.headD default).id
      = some prev)
    (hin : part.contains prev.id = true) :
    walkSlot dg part aop i (fuel + 1) lt =
      walkSlot dg part aop i fuel (parent.in_lts.headD default) := by
  rw [walkSlot_dequantize_step dg part aop i fuel lt parent hp hk]
  have hacc : accept_boundary dg part (parent.in_lts.headD default).id
      = false := by
    unfold accept_boundary
    rw [hprev]
    simp only [hin, Bool.not_true]
  rw [hacc]
  simp

/-- Witness for the amended C2 on scenario g2: the walk from tensor 103
steps past the rejected inner dequantize to its input tensor 102 and
both sides evaluate to the boundary record keyed by 100. -/
theorem c2_witness :
    walkSlot dg_g2 part_g2 mm_g2 0 5 ⟨103, "f32"⟩ =
        walkSlot dg_g2 part_g2 mm_g2 0 4 ⟨102, "u8"⟩ ∧
      walkSlot dg_g2 part_g2 mm_g2 0 4 ⟨102, "u8"⟩ =
        some (100, mm_g2, 0, ⟨100, "u8"⟩) :=
  ⟨c2_rejected_dequantize_walk_continues dg_g2 part_g2 mm_g2 0 4
      ⟨103, "f32"⟩ d1_g2 q1_g2 (by decide) (by decide) (by decide)
      (by decide),
    by decide⟩

/-! ## Helper lemmas about the boundary map -/

/-- A successful lookup exhibits the pair as a member of the map. -/
lemma lookupQ_mem (m : QMap) (k : Nat) (v : DOp × Nat × Lt)
    (h : lookupQ m k = some v) : (k, v) ∈ m := by
  unfold lookupQ at h
  cases hf : m.find? (fun e => e.1 == k) with
  | none => rw [hf] at h; simp at h
  | some e =>
    rw [hf] at h
    simp only [Option.map_some', Option.some.injEq] at h
    have he : e ∈ m := List.mem_of_find?_eq_some hf
    have hek : e.1 = k := by
      have := List.find?_some hf
      simpa using this
    have : (k, v) = e := by
      rw [← hek, ← h]
    rw [this]
    exact he

/-- Emplacing never disturbs an existing binding. -/
lemma lookupQ_emplaceQ (m : QMap) (k k2 : Nat) (v : DOp × Nat × Lt)
    (v2 : DOp × Nat × Lt) (h : lookupQ m k = some v) :
    lookupQ (emplaceQ m k2 v2) k = some v := by
  unfold emplaceQ
  split
  · exact h
  · unfold lookupQ at h ⊢
    rw [List.find?_append]
    cases hf : m.find? (fun e => e.1 == k) with
    | none => rw [hf] at h; simp at h
    | some e => rw [hf] at h; simpa using h

/-- One scanned op never disturbs an existing binding. -/
lemma lookupQ_scanOp (dg : DGraph) (part : List Nat) (m : QMap)
    (aop : DOp) (k : Nat) (v : DOp × Nat × Lt)
    (h : lookupQ m k = some v) :
    lookupQ (scanOp dg part m aop) k = some v := by
  unfold scanOp
  split
  · generalize List.range aop.in_lts.length = l
    induction l generalizing m with
    | nil => simpa using h
    | cons x xs ih =>
      simp only [List.foldl_cons]
      apply ih
      cases hw : walkSlot dg part aop x (dg.ops.length + 1)
          (aop.in_lts.getD x default) with
      | none => simpa [hw] using h
      | some kv =>
        obtain ⟨k2, v2⟩ := kv
        exact lookupQ_emplaceQ m k k2 v v2 h
  · exact h

/-! ## C6: first discovery wins -/

/-- C6: a boundary tensor id is recorded at most once: whatever bindings
a partial scan state already holds, scanning any further operations
(the rest of the chronological scan, including later main ops or slots
that rediscover the same tensor id) leaves the earlier binding in
place; the full scan buildDisplaceMap is exactly such a fold. -/
theorem c6_first_record_wins (dg : DGraph) (part : List Nat)
    (ops : List DOp) (m : QMap) (k : Nat) (v : DOp × Nat × Lt)
    (h : lookupQ m k = some v) :
    buildDisplaceMap dg part = dg.ops.foldl (scanOp dg part) [] ∧
      lookupQ (ops.foldl (scanOp dg part) m) k = some v := by
  refine ⟨rfl, ?_⟩
  induction ops generalizing m with
  | nil => simpa using h
  | cons o os ih =>
    simp only [List.foldl_cons]
    exact ih (scanOp dg part m o) (lookupQ_scanOp dg part m o k v h)

/-- Witness for C6 on scenario g4: after the matmul (id 2) has recorded
(100, matmul, 0), scanning the later add op (id 3), which rediscovers
tensor 100, keeps the matmul binding; the full scan agrees. -/
theorem c6_witness :
    lookupQ ([ad_g4].foldl (scanOp dg_g4 part_g4)
        [(100, (mm_g4, 0, ⟨100, "u8"⟩))]) 100 =
      some (mm_g4, 0, ⟨100, "u8"⟩) ∧
      buildDisplaceMap dg_g4 part_g4 = [(100, (mm_g4, 0, ⟨100, "u8"⟩))] :=
  ⟨(c6_first_record_wins dg_g4 part_g4 [ad_g4]
      [(100, (mm_g4, 0, ⟨100, "u8"⟩))] 100 (mm_g4, 0, ⟨100, "u8"⟩)
      (by decide)).2,
    by decide⟩

/-! ## Helper lemmas for the boundary-map invariant -/

/-- Membership after an emplace: the old members, possibly plus the new
pair. -/
lemma mem_emplaceQ (m : QMap) (k : Nat) (v : DOp × Nat × Lt)
    (e : Nat × DOp × Nat × Lt) (h : e ∈ emplaceQ m k v) :
    e ∈ m ∨ e = (k, v) := by
  unfold emplaceQ at h
  split at h
  · exact Or.inl h
  · rcases List.mem_append.mp h with h1 | h2
    · exact Or.inl h1
    · exact Or.inr (by simpa using h2)

/-- Every binding of the built boundary map is keyed by its recorded
tensor's id, and that tensor's producer is absent or outside the
partition. -/
lemma buildDisplaceMap_inv (dg : DGraph) (part : List Nat) :
    ∀ e ∈ buildDisplaceMap dg part,
      e.1 = e.2.2.2.id ∧ accept_boundary dg part e.1 = true := by
  have hscan : ∀ (aop : DOp) (m : QMap),
      (∀ e ∈ m, e.1 = e.2.2.2.id ∧ accept_boundary dg part e.1 = true) →
      ∀ e ∈ scanOp dg part m aop,
        e.1 = e.2.2.2.id ∧ accept_boundary dg part e.1 = true := by
    intro aop m hm
    unfold scanOp
    split
    · generalize List.range aop.in_lts.length = l
      induction l generalizing m with
      | nil => simpa using hm
      | cons x xs ih =>
        simp only [List.foldl_cons]
        apply ih
        cases hw : walkSlot dg part aop x (dg.ops.length + 1)
            (aop.in_lts.getD x default) with
        | none => simpa using hm
        | some kv =>
          obtain ⟨k2, a2, j2, t2⟩ := kv
          intro e he
          rcases mem_emplaceQ m k2 (a2, j2, t2) e he with h1 | h2
          · exact hm e h1
          · obtain ⟨hkt, _, _, hacc⟩ :=
              walkSlot_some_accept dg part aop x _ _ _ _ _ _ hw
            subst h2
            exact ⟨hkt, by rw [hkt]; exact hacc⟩
    · exact hm
  have hfold : ∀ (ops : List DOp) (m : QMap),
      (∀ e ∈ m, e.1 = e.2.2.2.id ∧ accept_boundary dg part e.1 = true) →
      ∀ e ∈ ops.foldl (scanOp dg part) m,
        e.1 = e.2.2.2.id ∧ accept_boundary dg part e.1 = true := by
    intro ops
    induction ops with
    | nil => intro m hm; simpa using hm
    | cons o os ih =>
      intro m hm
      simp only [List.foldl_cons]
      exact ih (scanOp dg part m o) (hscan o m hm)
  exact hfold dg.ops [] (by simp)

/-! ## C4: recorded boundaries start outside the partition, so the
replay loop never runs -/

/-- C4: for every tensor id in the built boundary map, the recorded
tensor carries that very id and its producer is absent from the graph
or outside the partition; consequently the reverse-replay loop
condition is false on entry (the loop body runs zero times, returning
the synthesized buffer untouched), and displace reduces to the
quantize-filling synthesis followed by the final reorder into the
caller's buffer. -/
theorem c4_replay_loop_runs_zero_times (dg : DGraph) (part : List Nat)
    (k : Nat) (a : DOp) (j : Nat) (t : Lt)
    (h : lookupQ (buildDisplaceMap dg part) k = some (a, j, t)) :
    k = t.id ∧
      (dg.get_op_by_out_lt k = none ∨
        ∃ p, dg.get_op_by_out_lt k = some p ∧
          part.contains p.id = false) ∧
      (∀ (Mem : Type) (B : Backend Mem) (fuel : Nat) (m0 : Mem),
        reverseReplay dg part B (fuel + 1) t m0 = ReplayOut.done m0) ∧
      (∀ (Mem : Type) (B : Backend Mem) (mem m0 : Mem),
        B.fill a j t.data_type = FillResult.filled m0 →
        displace (some dg) part (buildDisplaceMap dg part) B k mem =
          (DStatus.ok, B.reorder mem m0)) := by
  have hmem := lookupQ_mem (buildDisplaceMap dg part) k (a, j, t) h
  have hinv := buildDisplaceMap_inv dg part (k, (a, j, t)) hmem
  have hkt : k = t.id := hinv.1
  have hacc : accept_boundary dg part k = true := hinv.2
  have hprod : dg.get_op_by_out_lt k = none ∨
      ∃ p, dg.get_op_by_out_lt k = some p ∧ part.contains p.id = false := by
    unfold accept_boundary at hacc
    cases hp : dg.get_op_by_out_lt k with
    | none => exact Or.inl rfl
    | some p =>
      rw [hp] at hacc
      refine Or.inr ⟨p, rfl, ?_⟩
      simpa using hacc
  have hreplay : ∀ (Mem : Type) (B : Backend Mem) (fuel : Nat) (m0 : Mem),
      reverseReplay dg part B (fuel + 1) t m0 = ReplayOut.done m0 := by
    intro Mem B fuel m0
    simp only [reverseReplay]
    rcases hprod with hn | ⟨p, hp, hout⟩
    · rw [hkt] at hn
      rw [hn]
    · rw [hkt] at hp
      rw [hp]
      simp only [hout, Bool.false_eq_true, if_false]
  refine ⟨hkt, hprod, hreplay, ?_⟩
  intro Mem B mem m0 hfill
  unfold displace
  simp only [h, hfill, hreplay Mem B dg.ops.length m0]

/-- Witness for C4 on scenario g1: the recorded boundary 100 has no
producer, the replay loop runs zero times on buffer 5, and displace is
exactly filling followed by the reorder of buffer 5 into target 0. -/
theorem c4_witness :
    accept_boundary dg_g1 part_g1 100 = true ∧
      reverseReplay dg_g1 part_g1 natBackend 3 ⟨100, "u8"⟩ 5 =
        ReplayOut.done 5 ∧
      displace (some dg_g1) part_g1 (buildDisplaceMap dg_g1 part_g1)
        natBackend 100 0 = (DStatus.ok, 507) :=
  ⟨by decide,
    (c4_replay_loop_runs_zero_times dg_g1 part_g1 100 mm_g1 0 ⟨100, "u8"⟩
      (by decide)).2.2.1 Nat natBackend 2 5,
    (c4_replay_loop_runs_zero_times dg_g1 part_g1 100 mm_g1 0 ⟨100, "u8"⟩
      (by decide)).2.2.2 Nat natBackend 0 5 (by decide)⟩

/-! ## C7: absent entries mean a strict no-op -/

/-- In a graph with no Dequantize op the slot walk never yields. -/
lemma walkSlot_none_of_no_dq (dg : DGraph) (part : List Nat) (aop : DOp)
    (i : Nat) (hnd : ∀ op ∈ dg.ops, ¬ op.kind = "Dequantize") :
    ∀ (fuel : Nat) (lt : Lt), walkSlot dg part aop i fuel lt = none := by
  intro fuel
  induction fuel with
  | zero => intro lt; rfl
  | succ f ih =>
    intro lt
    simp only [walkSlot]
    cases hp : dg.get_op_by_out_lt lt.id with
    | none => rfl
    | some parent =>
      have hmem : parent ∈ dg.ops := by
        unfold DGraph.get_op_by_out_lt at hp
        exact List.mem_of_find?_eq_some hp
      have hk : (parent.kind == "Dequantize") = false := by
        have := hnd parent hmem
        simpa using this
      simp only [hk, Bool.false_and, Bool.false_eq_true, if_false]
      split
      · exact ih _
      · rfl

/-- C7: a tensor id with no entry in the boundary map makes displace
return OK immediately with the caller's buffer untouched; moreover, in
a partition drawn from a graph with no dequantize op at all, the built
boundary map is empty and displace is such a no-op for every tensor
id. -/
theorem c7_no_entry_no_op (Mem : Type) (B : Backend Mem) (dg : DGraph)
    (part : List Nat) :
    (∀ (qmap : QMap) (lt_id : Nat) (mem : Mem),
      lookupQ qmap lt_id = none →
      displace (some dg) part qmap B lt_id mem = (DStatus.ok, mem)) ∧
      ((∀ op ∈ dg.ops, ¬ op.kind = "Dequantize") →
        buildDisplaceMap dg part = [] ∧
        ∀ (lt_id : Nat) (mem : Mem),
          displace (some dg) part (buildDisplaceMap dg part) B lt_id mem =
            (DStatus.ok, mem)) := by
  have hnoop : ∀ (qmap : QMap) (lt_id : Nat) (mem : Mem),
      lookupQ qmap lt_id = none →
      displace (some dg) part qmap B lt_id mem = (DStatus.ok, mem) := by
    intro qmap lt_id mem hq
    unfold displace
    simp only [hq]
  refine ⟨hnoop, ?_⟩
  intro hnd
  have hempty : buildDisplaceMap dg part = [] := by
    unfold buildDisplaceMap
    have hscan : ∀ (aop : DOp) (m : QMap), scanOp dg part m aop = m := by
      intro aop m
      unfold scanOp
      split
      · generalize List.range aop.in_lts.length = l
        induction l generalizing m with
        | nil => rfl
        | cons x xs ih =>
          simp only [List.foldl_cons,
            walkSlot_none_of_no_dq dg part aop x hnd]
          exact ih m
      · rfl
    have hfold : ∀ (ops : List DOp) (m : QMap),
        ops.foldl (scanOp dg part) m = m := by
      intro ops
      induction ops with
      | nil => intro m; rfl
      | cons o os ih =>
        intro m
        simp only [List.foldl_cons, hscan o m]
        exact ih m
    exact hfold dg.ops []
  refine ⟨hempty, ?_⟩
  intro lt_id mem
  apply hnoop
  rw [hempty]
  rfl

/-- Witness for C7 on scenario g7 (a lone matmul, no dequantize):
displace on an arbitrary tensor id returns OK with the buffer 0
untouched, and the built map is empty. -/
theorem c7_witness :
    displace (some dg_g7) part_g7 [] natBackend 102 0 = (DStatus.ok, 0) ∧
      buildDisplaceMap dg_g7 part_g7 = [] :=
  ⟨(c7_no_entry_no_op Nat natBackend dg_g7 part_g7).1 [] 102 0 (by decide),
    ((c7_no_entry_no_op Nat natBackend dg_g7 part_g7).2 (by decide)).1⟩

/-! ## C8: skipped or unimplemented synthesis -/

/-- C8: when the backend reports the synthesis configuration skipped or
unimplemented during quantize filling, displace returns OK and the
target buffer's prior contents are left unchanged. -/
theorem c8_skipped_fill_is_ok_no_write (Mem : Type) (B : Backend Mem)
    (dg : DGraph) (part : List Nat) (qmap : QMap) (lt_id : Nat)
    (mem : Mem) (mo : DOp) (off : Nat) (t : Lt)
    (h : lookupQ qmap lt_id = some (mo, off, t))
    (hfill : B.fill mo off t.data_type = FillResult.skipped) :
    displace (some dg) part qmap B lt_id mem = (DStatus.ok, mem) := by
  unfold displace
  simp only [h, hfill]

/-- Witness for C8 on scenario g1 with the always-skipping backend. -/
theorem c8_witness :
    displace (some dg_g1) part_g1 (buildDisplaceMap dg_g1 part_g1)
      skipBackend 100 0 = (DStatus.ok, 0) :=
  c8_skipped_fill_is_ok_no_write Nat skipBackend dg_g1 part_g1
    (buildDisplaceMap dg_g1 part_g1) 100 0 mm_g1 0 ⟨100, "u8"⟩
    (by decide) (by decide)

/-! ## C9: unsupported kind during reverse replay -/

/-- A kind outside the go-through vocabulary has no reverse op: the
replay's switch falls into the assertion branch. -/
lemma reverseOp_none_of_not_go_through (p : DOp)
    (h : go_through_op_kind.contains p.kind = false) :
    reverseOp p = none := by
  have h' : ¬ p.kind = "StaticTranspose" ∧ ¬ p.kind = "StaticReshape" ∧
      ¬ p.kind = "TypeCast" ∧ ¬ p.kind = "Quantize" ∧
      ¬ p.kind = "Dequantize" := by
    simpa [go_through_op_kind] using h
  simp only [reverseOp]
  simp [h'.1, h'.2.1, h'.2.2.1, h'.2.2.2.1, h'.2.2.2.2]

/-- C9: if the reverse replay meets an in-partition producer whose kind
lies outside the set of StaticTranspose, StaticReshape, TypeCast,
Quantize and Dequantize, displace ends in the assertion status, which
is distinct from the ordinary failure status and from OK. -/
theorem c9_unsupported_kind_asserts (Mem : Type) (B : Backend Mem)
    (dg : DGraph) (part : List Nat) (qmap : QMap) (lt_id : Nat)
    (mem : Mem) (mo : DOp) (off : Nat) (t : Lt) (p : DOp) (m0 : Mem)
    (h : lookupQ qmap lt_id = some (mo, off, t))
    (hfill : B.fill mo off t.data_type = FillResult.filled m0)
    (hp : dg.get_op_by_out_lt t.id = some p)
    (hin : part.contains p.id = true)
    (hkind : go_through_op_kind.contains p.kind = false) :
    displace (some dg) part qmap B lt_id mem =
        (DStatus.assertFail, mem) ∧
      DStatus.assertFail ≠ DStatus.fail ∧
      DStatus.assertFail ≠ DStatus.ok := by
  have hrev := reverseOp_none_of_not_go_through p hkind
  have hloop : reverseReplay dg part B (dg.ops.length + 1) t m0 =
      ReplayOut.assertFail := by
    simp only [reverseReplay, hp, hin, hrev]
    simp
  refine ⟨?_, by decide, by decide⟩
  unfold displace
  simp only [h, hfill, hloop]

/-- Witness for C9 on scenario g6: a hand-made boundary record at
tensor 103, produced by an in-partition AvgPool, drives displace into
the assertion status. -/
theorem c9_witness :
    displace (some dg_g6) part_g6 qmap_g6 natBackend 103 0 =
      (DStatus.assertFail, 0) :=
  (c9_unsupported_kind_asserts Nat natBackend dg_g6 part_g6 qmap_g6 103 0
    pool_g6 0 ⟨103, "f32"⟩ pool_g6 5 (by decide) (by decide) (by decide)
    (by decide) (by decide)).1

/-! ## C10: the misspelled subtract kind -/

/-- C10: the canonical elementwise subtract kind string is not in the
source's main-op vocabulary (which instead carries the misspelling
Substract), so a partition made of a dequantize feeding a subtract op
yields an empty boundary map, while the identical graph with an Add op
in its place records the boundary at tensor 100. -/
theorem c10_subtract_not_scanned :
    main_op_kind.contains spec_subtract_kind = false ∧
      main_op_kind.contains "Substract" = true ∧
      buildDisplaceMap dg_g5sub part_g5 = [] ∧
      buildDisplaceMap dg_g5add part_g5 =
        [(100, (ad_g5, 0, ⟨100, "u8"⟩))] := by
  refine ⟨by decide, by decide, by decide, by decide⟩

/-! ## C3: the 4-op chain scenario -/

/-- C3 counterexample: in the spec's 4-op chain (scenario g3, all three
chain ops inside the partition) the scan records no boundary at all —
the dequantize is rejected because its predecessor, the transpose, is
inside the partition — so displace called on the matmul's first input
tensor id 102 finds nothing, synthesizes nothing, inverts nothing and
leaves the target buffer 0 untouched, contradicting the claim. -/
theorem c3_counterexample :
    buildDisplaceMap dg_g3 part_g3all = [] ∧
      lookupQ (buildDisplaceMap dg_g3 part_g3all) 102 = none ∧
      displace (some dg_g3) part_g3all (buildDisplaceMap dg_g3 part_g3all)
        natBackend 102 0 = (DStatus.ok, 0) ∧
      lookupQ (buildDisplaceMap dg_g3 part_g3out) 102 = none ∧
      displace (some dg_g3) part_g3out (buildDisplaceMap dg_g3 part_g3out)
        natBackend 102 0 = (DStatus.ok, 0) := by
  refine ⟨by decide, by decide, by decide, by decide, by decide⟩

/-- C3 amended: with all three chain ops in the partition the boundary
map is empty and displace on the matmul's first input id 102 is a
no-op; only with the transpose outside the partition is a boundary
recorded, keyed by the dequantize's input tensor id 101, and displace
called with 101 synthesizes data (buffer 5) and reorders it into the
target (yielding 507 under natBackend) while the reverse-replay loop
runs zero times — no quantize or transpose inversion occurs. -/
theorem c3_chain_behavior :
    buildDisplaceMap dg_g3 part_g3all = [] ∧
      displace (some dg_g3) part_g3all (buildDisplaceMap dg_g3 part_g3all)
        natBackend 102 0 = (DStatus.ok, 0) ∧
      buildDisplaceMap dg_g3 part_g3out =
        [(101, (mm_g3, 0, ⟨101, "u8"⟩))] ∧
      reverseReplay dg_g3 part_g3out natBackend 4 ⟨101, "u8"⟩ 5 =
        ReplayOut.done 5 ∧
      displace (some dg_g3) part_g3out (buildDisplaceMap dg_g3 part_g3out)
        natBackend 101 0 = (DStatus.ok, 507) := by
  refine ⟨by decide, by decide, by decide, by decide, by decide⟩

/-! ## Helper lemmas for the permutation inversion -/

/-- Truncated remainder of an in-range index shifted by the length. -/
lemma tmod_add_self_toNat (a : Int) (n : Nat) (h0 : 0 ≤ a)
    (h1 : a < (n : Int)) :
    ((a + (n : Int)).tmod (n : Int)).toNat = a.toNat := by
  rw [Int.tmod_eq_emod (by omega) (by omega)]
  have h2 : (a + (n : Int)) % (n : Int) = a % (n : Int) := by
    conv_lhs => rw [show a + (n : Int) = a + (n : Int) * 1 by ring]
    exact Int.add_mul_emod_self_left a (n : Int) 1
  rw [h2, Int.emod_eq_of_lt h0 h1]

/-- Folding position writes over a list preserves the length. -/
lemma foldl_set_length (g : Nat → Nat) (f : Nat → Int) :
    ∀ (l : List Nat) (acc : List Int),
      (l.foldl (fun L x => L.set (g x) (f x)) acc).length = acc.length := by
  intro l
  induction l with
  | nil => intro acc; rfl
  | cons x xs ih =>
    intro acc
    simp only [List.foldl_cons]
    rw [ih (acc.set (g x) (f x)), List.length_set]

/-- Value at a written position of the fold of position writes over a
range, when the write positions are injective below the bound. -/
lemma foldl_set_getD (g : Nat → Nat) (f : Nat → Int) :
    ∀ (m : Nat) (acc : List Int),
      (∀ i j, i < m → j < m → g i = g j → i = j) →
      (∀ i, i < m → g i < acc.length) →
      ∀ i, i < m →
        ((List.range m).foldl (fun L x => L.set (g x) (f x)) acc).getD
          (g i) 0 = f i := by
  intro m
  induction m with
  | zero => intro acc _ _ i hi; omega
  | succ mm ih =>
    intro acc hinj hb i hi
    rw [List.range_succ, List.foldl_append, List.foldl_cons,
      List.foldl_nil]
    by_cases him : i = mm
    · have hglen : g mm <
          ((List.range mm).foldl
            (fun L x => L.set (g x) (f x)) acc).length := by
        rw [foldl_set_length g f]
        exact hb mm (by omega)
      rw [him, List.getD_eq_getElem?_getD, List.getElem?_set_self hglen]
      rfl
    · have hi' : i < mm := by omega
      have hne : g mm ≠ g i := by
        intro he
        exact him (hinj mm i (by omega) (by omega) he).symm
      rw [List.getD_eq_getElem?_getD, List.getElem?_set_ne hne,
        ← List.getD_eq_getElem?_getD]
      exact ih acc
        (fun a b ha hb2 hg => hinj a b (by omega) (by omega) hg)
        (fun a ha => hb a (by omega)) i hi'

/-- Length of the inverted order. -/
lemma invert_order_length (order : List Int) :
    (invert_order order).length = order.length := by
  unfold invert_order
  rw [foldl_set_length
    (fun x => ((order.getD x 0 + (order.length : Int)).tmod
      (order.length : Int)).toNat)
    (fun x => (x : Int)) (List.range order.length)
    (List.replicate order.length 0)]
  exact List.length_replicate order.length 0

/-- Entries of a valid order are in range. -/
lemma valid_order_getD (order : List Int) (hv : valid_order order)
    (i : Nat) (hi : i < order.length) :
    0 ≤ order.getD i 0 ∧ order.getD i 0 < (order.length : Int) := by
  have hmem : order.getD i 0 ∈ order := by
    rw [List.getD_eq_getElem order 0 hi]
    exact List.getElem_mem hi
  exact hv.2 _ hmem

/-- The write position used by invert_order collapses to the plain
entry for a valid order. -/
lemma invert_write_pos (order : List Int) (hv : valid_order order)
    (i : Nat) (hi : i < order.length) :
    ((order.getD i 0 + (order.length : Int)).tmod
      (order.length : Int)).toNat = (order.getD i 0).toNat := by
  have h := valid_order_getD order hv i hi
  exact tmod_add_self_toNat _ _ h.1 h.2

/-- Entries of a valid order, as naturals, stay below the length. -/
lemma ord_toNat_lt (order : List Int) (hv : valid_order order)
    (i : Nat) (hi : i < order.length) :
    (order.getD i 0).toNat < order.length := by
  have h := valid_order_getD order hv i hi
  omega

/-- Entries of a valid order, as naturals, determine the position. -/
lemma ord_toNat_inj (order : List Int) (hv : valid_order order)
    (i j : Nat) (hi : i < order.length) (hj : j < order.length)
    (h : (order.getD i 0).toNat = (order.getD j 0).toNat) : i = j := by
  have hi2 := valid_order_getD order hv i hi
  have hj2 := valid_order_getD order hv j hj
  have heq : order.getD i 0 = order.getD j 0 := by omega
  rw [List.getD_eq_getElem order 0 hi, List.getD_eq_getElem order 0 hj]
    at heq
  exact (List.Nodup.getElem_inj_iff hv.1).mp heq

/-- Characterization of the inverted order: it sends each entry of the
order back to its position. -/
lemma invert_order_getD_ord (order : List Int) (hv : valid_order order)
    (i : Nat) (hi : i < order.length) :
    (invert_order order).getD ((order.getD i 0).toNat) 0 = (i : Int) := by
  have hinj : ∀ a b, a < order.length → b < order.length →
      ((order.getD a 0 + (order.length : Int)).tmod
        (order.length : Int)).toNat =
      ((order.getD b 0 + (order.length : Int)).tmod
        (order.length : Int)).toNat → a = b := by
    intro a b ha hb h
    rw [invert_write_pos order hv a ha, invert_write_pos order hv b hb]
      at h
    exact ord_toNat_inj order hv a b ha hb h
  have hbound : ∀ a, a < order.length →
      ((order.getD a 0 + (order.length : Int)).tmod
        (order.length : Int)).toNat <
        (List.replicate order.length (0 : Int)).length := by
    intro a ha
    rw [List.length_replicate, invert_write_pos order hv a ha]
    exact ord_toNat_lt order hv a ha
  have key := foldl_set_getD
    (fun x => ((order.getD x 0 + (order.length : Int)).tmod
      (order.length : Int)).toNat)
    (fun x => (x : Int)) order.length
    (List.replicate order.length 0) hinj hbound i hi
  simp only [] at key
  rw [invert_write_pos order hv i hi] at key
  exact key

/-- Every position below the length is hit by some entry of a valid
order (injectivity on a finite type gives surjectivity). -/
lemma ord_toNat_surj (order : List Int) (hv : valid_order order)
    (j : Nat) (hj : j < order.length) :
    ∃ i, i < order.length ∧ (order.getD i 0).toNat = j := by
  have hFinj : Function.Injective
      (fun x : Fin order.length =>
        (⟨(order.getD x.1 0).toNat, ord_toNat_lt order hv x.1 x.2⟩ :
          Fin order.length)) := by
    intro a b h
    apply Fin.ext
    exact ord_toNat_inj order hv a.1 b.1 a.2 b.2 (congrArg Fin.val h)
  have hFsurj := Finite.injective_iff_surjective.mp hFinj
  obtain ⟨i, hF⟩ := hFsurj ⟨j, hj⟩
  exact ⟨i.1, i.2, congrArg Fin.val hF⟩

/-- The inverted order of a valid order is valid. -/
lemma invert_order_valid (order : List Int) (hv : valid_order order) :
    valid_order (invert_order order) := by
  have hlen := invert_order_length order
  constructor
  · rw [List.nodup_iff_injective_get]
    intro a b hab
    have ha : a.1 < order.length := by rw [← hlen]; exact a.2
    have hb : b.1 < order.length := by rw [← hlen]; exact b.2
    obtain ⟨ia, hia, hga⟩ := ord_toNat_surj order hv a.1 ha
    obtain ⟨ib, hib, hgb⟩ := ord_toNat_surj order hv b.1 hb
    have hva : (invert_order order).getD a.1 0 = (ia : Int) := by
      rw [← hga]
      exact invert_order_getD_ord order hv ia hia
    have hvb : (invert_order order).getD b.1 0 = (ib : Int) := by
      rw [← hgb]
      exact invert_order_getD_ord order hv ib hib
    rw [List.getD_eq_getElem _ 0 a.2] at hva
    rw [List.getD_eq_getElem _ 0 b.2] at hvb
    rw [List.get_eq_getElem, List.get_eq_getElem] at hab
    rw [hab] at hva
    rw [hva] at hvb
    have : ia = ib := by exact_mod_cast hvb
    apply Fin.ext
    rw [← hga, ← hgb, this]
  · intro x hx
    rw [List.mem_iff_getElem] at hx
    obtain ⟨j, hj, hx⟩ := hx
    have hjn : j < order.length := by rw [← hlen]; exact hj
    obtain ⟨i, hi, hg⟩ := ord_toNat_surj order hv j hjn
    have hval : (invert_order order).getD j 0 = (i : Int) := by
      rw [← hg]
      exact invert_order_getD_ord order hv i hi
    rw [List.getD_eq_getElem _ 0 hj, hx] at hval
    subst hval
    constructor
    · exact Int.natCast_nonneg i
    · rw [hlen]
      exact_mod_cast hi

/-- Inverting a valid order twice restores it. -/
lemma invert_order_involutive (order : List Int)
    (hv : valid_order order) :
    invert_order (invert_order order) = order := by
  have hv2 := invert_order_valid order hv
  have hlen := invert_order_length order
  have hlen2 : (invert_order (invert_order order)).length
      = order.length := by
    rw [invert_order_length, hlen]
  apply List.ext_getElem hlen2
  intro j h1 h2
  have ha := valid_order_getD order hv j h2
  have haNat : (order.getD j 0).toNat < order.length :=
    ord_toNat_lt order hv j h2
  have haNat2 : (order.getD j 0).toNat < (invert_order order).length := by
    rw [hlen]
    exact haNat
  have hchar := invert_order_getD_ord (invert_order order) hv2
    ((order.getD j 0).toNat) haNat2
  have hmid : ((invert_order order).getD ((order.getD j 0).toNat) 0).toNat
      = j := by
    rw [invert_order_getD_ord order hv j h2]
    exact Int.toNat_natCast j
  rw [hmid] at hchar
  have hfin : (invert_order (invert_order order)).getD j 0
      = order.getD j 0 := by
    rw [hchar, Int.toNat_of_nonneg ha.1]
  rw [List.getD_eq_getElem _ 0 h1, List.getD_eq_getElem _ 0 h2] at hfin
  exact hfin

/-- Applying a valid order and then its computed inverse restores any
sequence of the same length. -/
lemma apply_invert_apply (order : List Int) (hv : valid_order order)
    (α : Type) (d : α) (xs : List α) (hlen : xs.length = order.length) :
    apply_order (invert_order order) d (apply_order order d xs) = xs := by
  have hleninv := invert_order_length order
  have hlen1 : (apply_order (invert_order order) d
      (apply_order order d xs)).length = xs.length := by
    unfold apply_order
    rw [List.length_map, hleninv, hlen]
  apply List.ext_getElem hlen1
  intro k h1 h2
  have hkn : k < order.length := by rw [← hlen]; exact h2
  have hkinv : k < (invert_order order).length := by
    rw [hleninv]
    exact hkn
  obtain ⟨i, hi, hgi⟩ := ord_toNat_surj order hv k hkn
  have hik : (invert_order order).getD k 0 = (i : Int) := by
    rw [← hgi]
    exact invert_order_getD_ord order hv i hi
  unfold apply_order
  rw [List.getElem_map]
  have hys : ∀ (m : Nat), m < order.length →
      (order.map (fun j => xs.getD j.toNat d)).getD m d
        = xs.getD ((order.getD m 0).toNat) d := by
    intro m hm
    have hm2 : m < (order.map (fun j => xs.getD j.toNat d)).length := by
      rw [List.length_map]
      exact hm
    rw [List.getD_eq_getElem _ d hm2, List.getElem_map,
      List.getD_eq_getElem order 0 hm]
  have hval : ((invert_order order).getD k 0).toNat = i := by
    rw [hik]
    exact Int.toNat_natCast i
  rw [← List.getD_eq_getElem (invert_order order) 0 hkinv, hval]
  rw [hys i hi, hgi, List.getD_eq_getElem xs d h2]

/-! ## C5: the transpose inversion law -/

/-- C5: the inversion rule writes k at position (order[k] + n) % n of
the new order for every k; for a valid permutation, applying the
inversion twice restores the original order, and applying the order
followed by its computed inverse to any sequence of the permutation's
length is the identity. -/
theorem c5_transpose_inversion_law (order : List Int)
    (hv : valid_order order) :
    (∀ k, k < order.length →
      (invert_order order).getD
        (((order.getD k 0 + (order.length : Int)).tmod
          (order.length : Int)).toNat) 0 = (k : Int)) ∧
      invert_order (invert_order order) = order ∧
      (∀ (α : Type) (d : α) (xs : List α), xs.length = order.length →
        apply_order (invert_order order) d (apply_order order d xs)
          = xs) := by
  refine ⟨?_, invert_order_involutive order hv, ?_⟩
  · intro k hk
    rw [invert_write_pos order hv k hk]
    exact invert_order_getD_ord order hv k hk
  · intro α d xs hlen
    exact apply_invert_apply order hv α d xs hlen

/-- Witness for C5 at the order [2, 0, 1] (not self-inverse) and the
sequence [10, 20, 30]. -/
theorem c5_witness :
    valid_order [(2 : Int), 0, 1] ∧
      invert_order (invert_order [(2 : Int), 0, 1]) = [2, 0, 1] ∧
      apply_order (invert_order [(2 : Int), 0, 1]) (0 : Int)
        (apply_order [(2 : Int), 0, 1] (0 : Int) [10, 20, 30])
        = [10, 20, 30] :=
  ⟨⟨by decide, by decide⟩,
    (c5_transpose_inversion_law [(2 : Int), 0, 1]
      ⟨by decide, by decide⟩).2.1,
    (c5_transpose_inversion_law [(2 : Int), 0, 1]
      ⟨by decide, by decide⟩).2.2 Int 0 [10, 20, 30] (by decide)⟩
